import Mathlib

/-!
Verification of the json4web codec (src/de.rs, src/ser.rs, src/error.rs).

The wire text is modelled as `List Char`: the Rust decoder's only state is a
suffix view of the input `&str`, mirrored here by returning the remaining
character list next to each decoded value.  Every slice offset taken by the
source is a char boundary, so char granularity is faithful.  The Rust `String`
output of the encoder is likewise modelled as the list of its characters.
-/

namespace Json4Web

/-- Error taxonomy from src/error.rs (`JsonError`).  The payloads carried by
the wrapped external parser errors (`ParseIntError`, `ParseFloatError`,
`DecodeError`, `Utf8Error`) are opaque collaborator values and are dropped.
The `NaN` variant is not declared in src/error.rs; it belongs to the crate
root error re-export (lib.rs, absent from src/) and its existence is forced
by the `Error::NaN` uses in src/ser.rs. -/
inductive JsonError where
  | UnexpectedEnd
  | InvalidUnicodeEscapeSequence
  | UnexpectedUnicodeEscapeSequence (code : Nat)
  | UnexpectedToken (c : Char)
  | OutOfRange
  | ParseFloatError
  | ParseIntError
  | Base64Error
  | Utf8Error
  | NaN
  | Custom (msg : String)
deriving DecidableEq

deriving instance DecidableEq for Except

/-- ASCII fragment of Rust `char::is_whitespace` (Unicode White_Space); every
input considered in this development is ASCII, where the two coincide. -/
def isRustWs (c : Char) : Bool :=
  c = ' ' || c = '\t' || c = '\n' || c = '\r' || c = '\x0b' || c = '\x0c'

/-- `Deserializer::trim_start` from src/de.rs: drop leading whitespace from
the remaining input. -/
def trim_start (s : List Char) : List Char := s.dropWhile isRustWs

/-- Rust `char::to_digit(16)`. -/
def hexDigitVal? (c : Char) : Option Nat :=
  if '0' ≤ c ∧ c ≤ '9' then some (c.toNat - 48)
  else if 'a' ≤ c ∧ c ≤ 'f' then some (c.toNat - 87)
  else if 'A' ≤ c ∧ c ≤ 'F' then some (c.toNat - 55)
  else none

/-- Body of `parse_string` from src/de.rs with `parse_escape` inlined so the
recursion is structural: scan to the closing quote, decoding escapes.
Returns the decoded content and the input past the closing quote.  The
`Cow::Borrowed`/`Cow::Owned` distinction (zero-copy optimisation) is erased:
both carry the same character content.  The `\u` branch mirrors the source's
`take(4)`: a non-hex character among the next four (including a closing
quote) is `InvalidUnicodeEscapeSequence`; when fewer than four characters
remain they are all hex or not, and in the all-hex case the source consumes
the whole input and the outer scan then fails with `UnexpectedEnd`, as here;
a code point rejected by `char::try_from` (a surrogate) is
`UnexpectedUnicodeEscapeSequence`. -/
def parseStringLoop : List Char → Except JsonError (List Char × List Char)
  | [] => .error .UnexpectedEnd
  | c :: cs =>
    if c = '"' then .ok ([], cs)
    else if c = '\\' then
      match cs with
      | [] => .error .UnexpectedEnd
      | e :: cs2 =>
        if e = '"' ∨ e = '\\' ∨ e = '/' then
          (parseStringLoop cs2).map (fun p => (e :: p.1, p.2))
        else if e = 'b' then (parseStringLoop cs2).map (fun p => ('\x08' :: p.1, p.2))
        else if e = 'f' then (parseStringLoop cs2).map (fun p => ('\x0c' :: p.1, p.2))
        else if e = 'n' then (parseStringLoop cs2).map (fun p => ('\n' :: p.1, p.2))
        else if e = 'r' then (parseStringLoop cs2).map (fun p => ('\r' :: p.1, p.2))
        else if e = 't' then (parseStringLoop cs2).map (fun p => ('\t' :: p.1, p.2))
        else if e = 'u' then
          match cs2 with
          | h1 :: h2 :: h3 :: h4 :: cs3 =>
            match hexDigitVal? h1, hexDigitVal? h2, hexDigitVal? h3, hexDigitVal? h4 with
            | some a, some b, some c3, some d =>
              let code := ((a * 16 + b) * 16 + c3) * 16 + d
              if code < 0xd800 ∨ (0xdfff < code ∧ code < 0x110000) then
                (parseStringLoop cs3).map (fun p => (Char.ofNat code :: p.1, p.2))
              else .error (.UnexpectedUnicodeEscapeSequence code)
            | _, _, _, _ => .error .InvalidUnicodeEscapeSequence
          | short =>
            match short.mapM hexDigitVal? with
            | none => .error .InvalidUnicodeEscapeSequence
            | some _ => .error .UnexpectedEnd
        else .error (.UnexpectedToken e)
    else (parseStringLoop cs).map (fun p => (c :: p.1, p.2))

/-- `Deserializer::parse_string` from src/de.rs: an opening quote, the scan
loop, then the decoded content as a `String`. -/
def parse_string : List Char → Except JsonError (String × List Char)
  | [] => .error .UnexpectedEnd
  | c :: cs =>
    if c = '"' then (parseStringLoop cs).map (fun p => (String.mk p.1, p.2))
    else .error (.UnexpectedToken c)

/-- `Deserializer::parse_bool` from src/de.rs: prefix-match the literals
`1`, `0`, `true`, `false` in that order (`count & 1 == 0` maps entries 0 and
2 to `true`); otherwise `UnexpectedToken` with the current character, or
`UnexpectedEnd` on empty input. -/
def parse_bool (s : List Char) : Except JsonError (Bool × List Char) :=
  if List.isPrefixOf ['1'] s then .ok (true, s.drop 1)
  else if List.isPrefixOf ['0'] s then .ok (false, s.drop 1)
  else if List.isPrefixOf ['t', 'r', 'u', 'e'] s then .ok (true, s.drop 4)
  else if List.isPrefixOf ['f', 'a', 'l', 's', 'e'] s then .ok (false, s.drop 5)
  else
    match s with
    | [] => .error .UnexpectedEnd
    | c :: _ => .error (.UnexpectedToken c)

/-- Value of an ASCII digit character. -/
def digitVal (c : Char) : Nat := c.toNat - 48

/-- Accumulate a digit run left to right. -/
def digitsToNat (cs : List Char) : Nat := cs.foldl (fun a c => a * 10 + digitVal c) 0

/-- Collaborator `<uN>::from_str` (core): an optional `+` sign then one or
more ASCII digits, the whole input; out-of-range is a `ParseIntError`
(overflow), as is any other shape. -/
def rustParseUnsigned (bound : Nat) (cs : List Char) : Except JsonError Nat :=
  let body := if cs.head? = some '+' then cs.tail else cs
  if body ≠ [] ∧ body.all Char.isDigit then
    let n := digitsToNat body
    if n < bound then .ok n else .error .ParseIntError
  else .error .ParseIntError

/-- Collaborator `<iN>::from_str` (core): an optional sign then one or more
ASCII digits, the whole input, range-checked. -/
def rustParseSigned (lo hi : Int) (cs : List Char) : Except JsonError Int :=
  if cs.head? = some '-' then
    if cs.tail ≠ [] ∧ cs.tail.all Char.isDigit then
      let v : Int := -(digitsToNat cs.tail : Int)
      if lo ≤ v then .ok v else .error .ParseIntError
    else .error .ParseIntError
  else
    let body := if cs.head? = some '+' then cs.tail else cs
    if body ≠ [] ∧ body.all Char.isDigit then
      let v : Int := (digitsToNat body : Int)
      if v ≤ hi then .ok v else .error .ParseIntError
    else .error .ParseIntError

/-- `Deserializer::parse_unsigned` from src/de.rs: take the maximal run of
ASCII digits, hand it to the width's `from_str`, advance past the run. -/
def parse_unsigned (bound : Nat) (s : List Char) : Except JsonError (Nat × List Char) :=
  (rustParseUnsigned bound (s.takeWhile Char.isDigit)).map
    (fun n => (n, s.dropWhile Char.isDigit))

/-- `Deserializer::parse_signed` from src/de.rs: the maximal run of ASCII
digits and `-`, handed to the width's `from_str`. -/
def parse_signed (lo hi : Int) (s : List Char) : Except JsonError (Int × List Char) :=
  (rustParseSigned lo hi (s.takeWhile (fun c => c.isDigit || c = '-'))).map
    (fun v => (v, s.dropWhile (fun c => c.isDigit || c = '-')))

/-- Abstract IEEE float of either width.  Arithmetic and rounding are out of
scope: a finite float is identified with its shortest-round-trip decimal
literal, the fixed contract of the out-of-scope ryu formatter and core float
parser collaborators; the NaN and infinity classes are kept separate because
the codec branches on them. -/
inductive Fp where
  | nan
  | inf (neg : Bool)
  | finite (lit : String)
deriving DecidableEq

/-- Rust `f32::is_finite` / `f64::is_finite` on the abstract float. -/
def Fp.isFinite : Fp → Bool
  | .finite _ => true
  | _ => false

/-- Rust `is_nan` on the abstract float. -/
def Fp.isNan : Fp → Bool
  | .nan => true
  | _ => false

/-- Collaborator core float `from_str`, restricted to the character runs the
decoder can hand it (digits, `-`, `.`): an optional sign, then digits with at
most one point and at least one digit. -/
def rustParseFloat (cs : List Char) : Except JsonError Fp :=
  let body := if cs.head? = some '-' then cs.tail else cs
  let ip := body.takeWhile Char.isDigit
  match body.dropWhile Char.isDigit with
  | [] => if ip = [] then .error .ParseFloatError else .ok (.finite (String.mk cs))
  | '.' :: fr =>
    if fr.all Char.isDigit ∧ (ip ≠ [] ∨ fr ≠ []) then .ok (.finite (String.mk cs))
    else .error .ParseFloatError
  | _ => .error .ParseFloatError

/-- `Deserializer::parse_float` from src/de.rs: if the remaining input
starts with the literal `null`, return NaN — the source's early return does
not advance the cursor, reproduced faithfully here by returning `s` itself;
otherwise take the maximal run of digits, `-`, `.` and hand it to the float
parser.  (`T::from(core::f32::NAN)` is a NaN at either target width.) -/
def parse_float (s : List Char) : Except JsonError (Fp × List Char) :=
  if List.isPrefixOf ['n', 'u', 'l', 'l'] s then .ok (.nan, s)
  else
    (rustParseFloat (s.takeWhile (fun c => c.isDigit || c = '-' || c = '.'))).map
      (fun v => (v, s.dropWhile (fun c => c.isDigit || c = '-' || c = '.')))

/-- `deserialize_bool` from src/de.rs: trim, then `parse_bool`. -/
def deserialize_bool (s : List Char) : Except JsonError (Bool × List Char) :=
  parse_bool (trim_start s)

/-- `deserialize_u8`: trim, then `parse_unsigned` at the u8 range. -/
def deserialize_u8 (s : List Char) : Except JsonError (Nat × List Char) :=
  parse_unsigned (2 ^ 8) (trim_start s)

/-- `deserialize_u16`. -/
def deserialize_u16 (s : List Char) : Except JsonError (Nat × List Char) :=
  parse_unsigned (2 ^ 16) (trim_start s)

/-- `deserialize_u32`. -/
def deserialize_u32 (s : List Char) : Except JsonError (Nat × List Char) :=
  parse_unsigned (2 ^ 32) (trim_start s)

/-- `deserialize_i8`: trim, then `parse_signed` at the i8 range. -/
def deserialize_i8 (s : List Char) : Except JsonError (Int × List Char) :=
  parse_signed (-(2 ^ 7)) (2 ^ 7 - 1) (trim_start s)

/-- `deserialize_i16`. -/
def deserialize_i16 (s : List Char) : Except JsonError (Int × List Char) :=
  parse_signed (-(2 ^ 15)) (2 ^ 15 - 1) (trim_start s)

/-- `deserialize_i32`. -/
def deserialize_i32 (s : List Char) : Except JsonError (Int × List Char) :=
  parse_signed (-(2 ^ 31)) (2 ^ 31 - 1) (trim_start s)

/-- Shared body of the wide unsigned deserializers (src/de.rs): trim,
`parse_string`, then the width's `from_str` on the quoted contents. -/
def deserializeQuotedUnsigned (bound : Nat) (s : List Char) :
    Except JsonError (Nat × List Char) :=
  match parse_string (trim_start s) with
  | .error e => .error e
  | .ok p =>
    match rustParseUnsigned bound p.1.data with
    | .error e => .error e
    | .ok n => .ok (n, p.2)

/-- Shared body of the wide signed deserializers (src/de.rs). -/
def deserializeQuotedSigned (lo hi : Int) (s : List Char) :
    Except JsonError (Int × List Char) :=
  match parse_string (trim_start s) with
  | .error e => .error e
  | .ok p =>
    match rustParseSigned lo hi p.1.data with
    | .error e => .error e
    | .ok v => .ok (v, p.2)

/-- `deserialize_u64` from src/de.rs: trim, `parse_string`, then
`u64::from_str` on the quoted contents. -/
def deserialize_u64 : List Char → Except JsonError (Nat × List Char) :=
  deserializeQuotedUnsigned (2 ^ 64)

/-- `deserialize_u128`: quoted-string wire form like u64. -/
def deserialize_u128 : List Char → Except JsonError (Nat × List Char) :=
  deserializeQuotedUnsigned (2 ^ 128)

/-- `deserialize_i64` from src/de.rs: trim, `parse_string`, then
`i64::from_str` on the quoted contents. -/
def deserialize_i64 : List Char → Except JsonError (Int × List Char) :=
  deserializeQuotedSigned (-(2 ^ 63)) (2 ^ 63 - 1)

/-- `deserialize_i128`: quoted-string wire form like i64. -/
def deserialize_i128 : List Char → Except JsonError (Int × List Char) :=
  deserializeQuotedSigned (-(2 ^ 127)) (2 ^ 127 - 1)

/-- `deserialize_f32` from src/de.rs: trim, then `parse_float`. -/
def deserialize_f32 (s : List Char) : Except JsonError (Fp × List Char) :=
  parse_float (trim_start s)

/-- `deserialize_f64` from src/de.rs: trim, then `parse_float`. -/
def deserialize_f64 (s : List Char) : Except JsonError (Fp × List Char) :=
  parse_float (trim_start s)

/-- `deserialize_str` from src/de.rs: trim, then `parse_string`
(the borrowed/owned visitor split carries the same string). -/
def deserialize_str (s : List Char) : Except JsonError (String × List Char) :=
  parse_string (trim_start s)

/-- `deserialize_char` from src/de.rs: decode a string, then its first
character; an empty string is `UnexpectedToken('"')`. -/
def deserialize_char (s : List Char) : Except JsonError (Char × List Char) :=
  match parse_string (trim_start s) with
  | .error e => .error e
  | .ok p =>
    match p.1.data with
    | [] => .error (.UnexpectedToken '"')
    | c :: _ => .ok (c, p.2)

/-- `deserialize_option` from src/de.rs: trim, peek; a leading `n` selects
`visit_none` without consuming anything (faithful to the source, which never
advances past the `null`); anything else decodes the inner value. -/
def deserialize_option (inner : List Char → Except JsonError (α × List Char))
    (s : List Char) : Except JsonError (Option α × List Char) :=
  match trim_start s with
  | [] => .error .UnexpectedEnd
  | c :: rest =>
    if c = 'n' then .ok (none, c :: rest)
    else (inner (c :: rest)).map (fun p => (some p.1, p.2))

/-- `deserialize_unit` from src/de.rs: trim, require and consume the literal
`null`. -/
def deserialize_unit (s : List Char) : Except JsonError (Unit × List Char) :=
  let s1 := trim_start s
  if List.isPrefixOf ['n', 'u', 'l', 'l'] s1 then .ok ((), s1.drop 4)
  else
    match s1 with
    | [] => .error .UnexpectedEnd
    | c :: _ => .error (.UnexpectedToken c)

/-- Decimal digit character (only ever applied to values below 10). -/
def digitChar : Nat → Char
  | 0 => '0' | 1 => '1' | 2 => '2' | 3 => '3' | 4 => '4'
  | 5 => '5' | 6 => '6' | 7 => '7' | 8 => '8' | 9 => '9'
  | _ => '*'

/-- Little-endian decimal digits of `n`, fuel-driven so the recursion is
structural; any fuel of at least `n` is exact for positive `n`. -/
def natToDigitsRevAux : Nat → Nat → List Nat
  | 0, _ => []
  | f + 1, n => if n = 0 then [] else n % 10 :: natToDigitsRevAux f (n / 10)

/-- Collaborator `ToString` for the unsigned integer widths (Rust
`v.to_string()`): the plain decimal digits of the value. -/
def decimalNat (n : Nat) : List Char :=
  if n = 0 then ['0'] else ((natToDigitsRevAux n n).map digitChar).reverse

/-- Collaborator `ToString` for the signed integer widths: leading `-` for
negative values, then the decimal digits of the magnitude. -/
def decimalInt (i : Int) : List Char :=
  if i < 0 then '-' :: decimalNat i.natAbs else decimalNat i.natAbs

/-- Lowercase hex digit character (only ever applied to values below 16). -/
def hexChar : Nat → Char
  | 0 => '0' | 1 => '1' | 2 => '2' | 3 => '3' | 4 => '4'
  | 5 => '5' | 6 => '6' | 7 => '7' | 8 => '8' | 9 => '9'
  | 10 => 'a' | 11 => 'b' | 12 => 'c' | 13 => 'd' | 14 => 'e' | 15 => 'f'
  | _ => '*'

/-- Minimal lowercase hex digits of a code point (at most six nibbles, as in
Rust `char::escape_unicode`). -/
def toHexMin (n : Nat) : List Char :=
  let ds := [n / 16 ^ 5 % 16, n / 16 ^ 4 % 16, n / 16 ^ 3 % 16,
             n / 16 ^ 2 % 16, n / 16 % 16, n % 16]
  match ds.dropWhile (fun d => d = 0) with
  | [] => ['0']
  | l => l.map hexChar

/-- Collaborator Rust `char::escape_default`, used by `serialize_str` in
src/ser.rs: backslash escapes for tab, CR, LF, backslash, single quote and
double quote; printable ASCII unchanged; everything else as a Rust-style
`\u` escape with braces and minimal lowercase hex digits. -/
def escapeDefaultChar (c : Char) : List Char :=
  if c = '\t' then ['\\', 't']
  else if c = '\r' then ['\\', 'r']
  else if c = '\n' then ['\\', 'n']
  else if c = '\\' then ['\\', '\\']
  else if c = '\x27' then ['\\', '\x27']
  else if c = '"' then ['\\', '"']
  else if 0x20 ≤ c.toNat ∧ c.toNat ≤ 0x7e then [c]
  else '\\' :: 'u' :: '\x7b' :: (toHexMin c.toNat ++ ['\x7d'])

/-- Rust `str::escape_default`: each character escaped in order. -/
def escapeDefaultList (cs : List Char) : List Char :=
  cs.foldr (fun c acc => escapeDefaultChar c ++ acc) []

/-- `serialize_str` from src/ser.rs: a quote, the `escape_default` of the
string, a quote. -/
def serialize_str (v : String) : List Char :=
  '"' :: (escapeDefaultList v.data ++ ['"'])

/-- `serialize_char` from src/ser.rs: string-serialize the one-character
string. -/
def serialize_char (c : Char) : List Char :=
  serialize_str (String.mk [c])

/-- `serialize_bool` from src/ser.rs: the literal `1` or `0`, never
`true`/`false`. -/
def serialize_bool (v : Bool) : List Char :=
  if v then ['1'] else ['0']

/-- `Serializer::serialize_simple_string` from src/ser.rs: the fragment
wrapped in quotes with no escaping. -/
def serialize_simple_string (body : List Char) : List Char :=
  '"' :: (body ++ ['"'])

/-- `serialize_u8` from src/ser.rs: bare decimal. -/
def serialize_u8 (n : Nat) : List Char := decimalNat n

/-- `serialize_u16`: bare decimal. -/
def serialize_u16 (n : Nat) : List Char := decimalNat n

/-- `serialize_u32`: bare decimal. -/
def serialize_u32 (n : Nat) : List Char := decimalNat n

/-- `serialize_i8` from src/ser.rs: bare decimal with optional sign. -/
def serialize_i8 (i : Int) : List Char := decimalInt i

/-- `serialize_i16`: bare decimal with optional sign. -/
def serialize_i16 (i : Int) : List Char := decimalInt i

/-- `serialize_i32`: bare decimal with optional sign. -/
def serialize_i32 (i : Int) : List Char := decimalInt i

/-- `serialize_u64` from src/ser.rs: quoted decimal. -/
def serialize_u64 (n : Nat) : List Char := serialize_simple_string (decimalNat n)

/-- `serialize_u128`: quoted decimal. -/
def serialize_u128 (n : Nat) : List Char := serialize_simple_string (decimalNat n)

/-- `serialize_i64` from src/ser.rs: quoted decimal. -/
def serialize_i64 (i : Int) : List Char := serialize_simple_string (decimalInt i)

/-- `serialize_i128`: quoted decimal. -/
def serialize_i128 (i : Int) : List Char := serialize_simple_string (decimalInt i)

/-- Collaborator ryu `Buffer::format_finite`: on a finite float it yields the
shortest-round-trip literal; on NaN or an infinity its output is unspecified
by ryu, modelled by fixed placeholder text. -/
def formatFinite : Fp → List Char
  | .finite lit => lit.data
  | .nan => ['N', 'a', 'N']
  | .inf _ => ['i', 'n', 'f']

/-- `serialize_f32` from src/ser.rs, verbatim logic: `if v.is_finite()`
return `Err(Error::NaN)`, otherwise append `format_finite(v)`. -/
def serialize_f32 (v : Fp) : Except JsonError (List Char) :=
  if v.isFinite then .error .NaN else .ok (formatFinite v)

/-- `serialize_f64` from src/ser.rs, same logic as `serialize_f32`. -/
def serialize_f64 (v : Fp) : Except JsonError (List Char) :=
  if v.isFinite then .error .NaN else .ok (formatFinite v)

/-- `serialize_unit` from src/ser.rs (also `serialize_none`): the literal
`null`. -/
def serialize_unit : List Char := ['n', 'u', 'l', 'l']

/-- `Compound::serialize_element` folded over a list of already-encoded
element fragments (src/ser.rs): the first-element flag starts true, is read
and cleared once per element, and a comma is emitted exactly when it was
false. -/
def serializeElements : Bool → List (List Char) → List Char
  | _, [] => []
  | first, f :: fs => (if first then [] else [',']) ++ f ++ serializeElements false fs

/-- `serialize_seq` plus `SerializeSeq` from src/ser.rs: bracket, elements
with the comma discipline, closing bracket. -/
def serialize_seq (frags : List (List Char)) : List Char :=
  '[' :: (serializeElements true frags ++ [']'])

/-- `SerializeMap::serialize_key`/`serialize_value` folded over encoded
key/value fragment pairs (src/ser.rs): the comma gate guards the key, the
colon separates key from value. -/
def serializeMapPairs : Bool → List (List Char × List Char) → List Char
  | _, [] => []
  | first, p :: ps =>
    (if first then [] else [',']) ++ p.1 ++ ':' :: (p.2 ++ serializeMapPairs false ps)

/-- `serialize_map` plus `SerializeMap` from src/ser.rs. -/
def serialize_map (ps : List (List Char × List Char)) : List Char :=
  '\x7b' :: (serializeMapPairs true ps ++ ['\x7d'])

/-- `SerializeStruct::serialize_field` folded over field-name/value pairs
(src/ser.rs): like a map, except each key is a `&'static str` serialized
through `serialize_str`. -/
def serializeStructFields : Bool → List (String × List Char) → List Char
  | _, [] => []
  | first, f :: fs =>
    (if first then [] else [',']) ++ serialize_str f.1 ++
      ':' :: (f.2 ++ serializeStructFields false fs)

/-- `serialize_struct` plus `SerializeStruct` from src/ser.rs. -/
def serialize_struct (fs : List (String × List Char)) : List Char :=
  '\x7b' :: (serializeStructFields true fs ++ ['\x7d'])

/-- The comma-separation shape stated by the specification: no separator
before the first element, exactly one between adjacent elements.  This is a
specification-side definition, to be compared with the encoder fold. -/
def specCommaJoin : List (List Char) → List Char
  | [] => []
  | [x] => x
  | x :: xs => x ++ ',' :: specCommaJoin xs

/-- `CommaSeparated` as `SeqAccess` (src/de.rs), driven by the standard
sequence visitor loop (repeat `next_element_seed` until it reports the end):
trim, stop without consuming on `]`, otherwise require a leading comma for
every element after the first, clear the flag, decode one element.  Fuel
makes the recursion structural; it is irrelevant whenever it exceeds the
element count. -/
def seqElemsLoop (elem : List Char → Except JsonError (α × List Char)) :
    Nat → Bool → List Char → Except JsonError (List α × List Char)
  | 0, _, _ => .error (.Custom "fuel")
  | fuel + 1, first, s =>
    match trim_start s with
    | [] => .error .UnexpectedEnd
    | c :: rest =>
      if c = ']' then .ok ([], c :: rest)
      else
        match (if first then Except.ok (c :: rest)
               else if c = ',' then Except.ok rest
               else Except.error (JsonError.UnexpectedToken c) :
                 Except JsonError (List Char)) with
        | .error e => .error e
        | .ok s2 =>
          match elem s2 with
          | .error e => .error e
          | .ok (v, s3) =>
            match seqElemsLoop elem fuel false s3 with
            | .error e => .error e
            | .ok (vs, s4) => .ok (v :: vs, s4)

/-- `deserialize_seq` from src/de.rs: trim, consume `[` (on any other
character the source consumes it and reports the character after it), run
the element loop, trim, consume `]`. -/
def deserialize_seq (elem : List Char → Except JsonError (α × List Char))
    (fuel : Nat) (s : List Char) : Except JsonError (List α × List Char) :=
  match trim_start s with
  | [] => .error .UnexpectedEnd
  | c :: rest =>
    if c = '[' then
      match seqElemsLoop elem fuel true rest with
      | .error e => .error e
      | .ok (vs, s2) =>
        match trim_start s2 with
        | [] => .error .UnexpectedEnd
        | c2 :: rest2 => if c2 = ']' then .ok (vs, rest2) else .error (.UnexpectedToken c2)
    else
      match rest with
      | [] => .error .UnexpectedEnd
      | c2 :: _ => .error (.UnexpectedToken c2)

/-- `CommaSeparated` as `MapAccess` (src/de.rs), driven by the standard map
visitor loop: `next_key_seed` trims, stops without consuming on the closing
brace, applies the comma gate, decodes a key; `next_value_seed` trims,
requires `:`, decodes a value. -/
def mapPairsLoop (key : List Char → Except JsonError (κ × List Char))
    (val : List Char → Except JsonError (α × List Char)) :
    Nat → Bool → List Char → Except JsonError (List (κ × α) × List Char)
  | 0, _, _ => .error (.Custom "fuel")
  | fuel + 1, first, s =>
    match trim_start s with
    | [] => .error .UnexpectedEnd
    | c :: rest =>
      if c = '\x7d' then .ok ([], c :: rest)
      else
        match (if first then Except.ok (c :: rest)
               else if c = ',' then Except.ok rest
               else Except.error (JsonError.UnexpectedToken c) :
                 Except JsonError (List Char)) with
        | .error e => .error e
        | .ok s2 =>
          match key s2 with
          | .error e => .error e
          | .ok (k, s3) =>
            match trim_start s3 with
            | [] => .error .UnexpectedEnd
            | c2 :: r3 =>
              if c2 = ':' then
                match val r3 with
                | .error e => .error e
                | .ok (v, s4) =>
                  match mapPairsLoop key val fuel false s4 with
                  | .error e => .error e
                  | .ok (ps, s5) => .ok ((k, v) :: ps, s5)
              else .error (.UnexpectedToken c2)

/-- `deserialize_map` from src/de.rs (also the body of `deserialize_struct`,
which forwards here): trim, consume `{` (reporting the consumed character on
mismatch), run the pair loop, trim, consume `}`. -/
def deserialize_map (key : List Char → Except JsonError (κ × List Char))
    (val : List Char → Except JsonError (α × List Char))
    (fuel : Nat) (s : List Char) : Except JsonError (List (κ × α) × List Char) :=
  match trim_start s with
  | [] => .error .UnexpectedEnd
  | c :: rest =>
    if c = '\x7b' then
      match mapPairsLoop key val fuel true rest with
      | .error e => .error e
      | .ok (ps, s2) =>
        match trim_start s2 with
        | [] => .error .UnexpectedEnd
        | c2 :: rest2 => if c2 = '\x7d' then .ok (ps, rest2) else .error (.UnexpectedToken c2)
    else .error (.UnexpectedToken c)

/-- `from_str` from src/de.rs: build a deserializer over the input, run the
target type's root decode, and return its value — the deserializer and
whatever input it has not consumed are dropped without any end-of-input
check.  The target's root decode is the parameter. -/
def from_str (root : List Char → Except JsonError (α × List Char))
    (s : List Char) : Except JsonError α :=
  (root s).map (fun p => p.1)

/-- The four-shape enum exercised by the repository's tests
(`enum E { Unit, Newtype(u32), Tuple(u32, u32), Struct { a: u32 } }`). -/
inductive E where
  | Unit
  | Newtype (n : Nat)
  | Tuple (a b : Nat)
  | Struct (a : Nat)
deriving DecidableEq

/-- Tuple-variant payload: `VariantAccess::tuple_variant` (src/de.rs)
forwards to `deserialize_seq`, whose visitor here is the serde-derived
two-element tuple visitor (an element missing at either position is a
model-level length error; the derived visitor does not look past the second
element, so `deserialize_seq` itself then requires the closing bracket). -/
def decodeTuple2 (s : List Char) : Except JsonError ((Nat × Nat) × List Char) :=
  match trim_start s with
  | [] => .error .UnexpectedEnd
  | c :: rest =>
    if c = '[' then
      match trim_start rest with
      | [] => .error .UnexpectedEnd
      | c1 :: r1 =>
        if c1 = ']' then .error (.Custom "invalid length 0")
        else
          match deserialize_u32 (c1 :: r1) with
          | .error e => .error e
          | .ok (a, s2) =>
            match trim_start s2 with
            | [] => .error .UnexpectedEnd
            | c2 :: r2 =>
              if c2 = ']' then .error (.Custom "invalid length 1")
              else if c2 = ',' then
                match deserialize_u32 r2 with
                | .error e => .error e
                | .ok (b, s3) =>
                  match trim_start s3 with
                  | [] => .error .UnexpectedEnd
                  | c3 :: r3 =>
                    if c3 = ']' then .ok ((a, b), r3) else .error (.UnexpectedToken c3)
              else .error (.UnexpectedToken c2)
    else
      match rest with
      | [] => .error .UnexpectedEnd
      | c2 :: _ => .error (.UnexpectedToken c2)

/-- Field loop of the serde-derived visitor for `Struct { a: u32 }` riding on
`CommaSeparated` as `MapAccess` (src/de.rs): keys are identifiers decoded
through `deserialize_str`; a repeated `a` is a duplicate-field error, a
missing one at the closing brace a missing-field error.  For an unknown key
the derived code skips the value via `deserialize_ignored_any`, which in
this crate visits unit while consuming nothing — reproduced faithfully. -/
def structAFieldsLoop : Nat → Bool → Option Nat → List Char → Except JsonError (Nat × List Char)
  | 0, _, _, _ => .error (.Custom "fuel")
  | fuel + 1, first, acc, s =>
    match trim_start s with
    | [] => .error .UnexpectedEnd
    | c :: rest =>
      if c = '\x7d' then
        match acc with
        | some a => .ok (a, c :: rest)
        | none => .error (.Custom "missing field a")
      else
        match (if first then Except.ok (c :: rest)
               else if c = ',' then Except.ok rest
               else Except.error (JsonError.UnexpectedToken c) :
                 Except JsonError (List Char)) with
        | .error e => .error e
        | .ok s2 =>
          match deserialize_str s2 with
          | .error e => .error e
          | .ok (k, s3) =>
            if k = "a" then
              match acc with
              | some _ => .error (.Custom "duplicate field a")
              | none =>
                match trim_start s3 with
                | [] => .error .UnexpectedEnd
                | c2 :: r3 =>
                  if c2 = ':' then
                    match deserialize_u32 r3 with
                    | .error e => .error e
                    | .ok (v, s4) => structAFieldsLoop fuel false (some v) s4
                  else .error (.UnexpectedToken c2)
            else
              match trim_start s3 with
              | [] => .error .UnexpectedEnd
              | c2 :: r3 =>
                if c2 = ':' then structAFieldsLoop fuel false acc r3
                else .error (.UnexpectedToken c2)

/-- Struct-variant payload: `VariantAccess::struct_variant` forwards to
`deserialize_map` (src/de.rs) with the derived field visitor above. -/
def decodeStructA (fuel : Nat) (s : List Char) : Except JsonError (Nat × List Char) :=
  match trim_start s with
  | [] => .error .UnexpectedEnd
  | c :: rest =>
    if c = '\x7b' then
      match structAFieldsLoop fuel true none rest with
      | .error e => .error e
      | .ok (a, s2) =>
        match trim_start s2 with
        | [] => .error .UnexpectedEnd
        | c2 :: rest2 => if c2 = '\x7d' then .ok (a, rest2) else .error (.UnexpectedToken c2)
    else .error (.UnexpectedToken c)

/-- `deserialize_enum` from src/de.rs driving the serde-derived visitor for
`E`.  A bare quoted tag decodes through the tag string's own deserializer:
`Unit` is the unit variant, another declared name is a model-level
invalid-type error, an undeclared name an unknown-variant error.  An object
form consumes `{`, decodes the tag as an identifier, is rejected for an
undeclared tag, requires `:` (`Enum::variant_seed`), dispatches on the
variant's declared shape — `unit_variant` always fails with the current
character (so an absent payload is also rejected), newtype decodes one u32,
tuple and struct dispatch into the sequence and map decoders — and finally
consumes the closing `}`. -/
def decodeE (s : List Char) : Except JsonError (E × List Char) :=
  match trim_start s with
  | [] => .error .UnexpectedEnd
  | c :: rest =>
    if c = '"' then
      match parse_string (c :: rest) with
      | .error e => .error e
      | .ok (name, s2) =>
        if name = "Unit" then .ok (.Unit, s2)
        else if name = "Newtype" ∨ name = "Tuple" ∨ name = "Struct" then
          .error (.Custom "invalid type: unit variant")
        else .error (.Custom "unknown variant")
    else if c = '\x7b' then
      match deserialize_str rest with
      | .error e => .error e
      | .ok (name, s2) =>
        if name = "Unit" ∨ name = "Newtype" ∨ name = "Tuple" ∨ name = "Struct" then
          match trim_start s2 with
          | [] => .error .UnexpectedEnd
          | c2 :: r2 =>
            if c2 = ':' then
              match (if name = "Unit" then
                       match r2 with
                       | [] => Except.error JsonError.UnexpectedEnd
                       | ch :: _ => Except.error (JsonError.UnexpectedToken ch)
                     else if name = "Newtype" then
                       (deserialize_u32 r2).map (fun p => (E.Newtype p.1, p.2))
                     else if name = "Tuple" then
                       (decodeTuple2 r2).map (fun p => (E.Tuple p.1.1 p.1.2, p.2))
                     else
                       (decodeStructA (r2.length + 1) r2).map
                         (fun p => (E.Struct p.1, p.2)) :
                       Except JsonError (E × List Char)) with
              | .error e => .error e
              | .ok (v, s3) =>
                match trim_start s3 with
                | [] => .error .UnexpectedEnd
                | c3 :: r3 =>
                  if c3 = '\x7d' then .ok (v, r3) else .error (.UnexpectedToken c3)
            else .error (.UnexpectedToken c2)
        else .error (.Custom "unknown variant")
    else .error (.UnexpectedToken c)

/-- The four variant serializers from src/ser.rs applied to `E`:
`serialize_unit_variant` emits the bare quoted tag; the newtype form is
`{`, tag, `:`, payload, `}`; `serialize_tuple_variant` opens `{tag:[` and
its compound `end` closes `]}`; `serialize_struct_variant` opens `{tag:{`
and its `end` closes `}}`. -/
def encodeE : E → List Char
  | .Unit => serialize_str "Unit"
  | .Newtype n => '\x7b' :: (serialize_str "Newtype" ++ ':' :: (serialize_u32 n ++ ['\x7d']))
  | .Tuple a b =>
    '\x7b' :: (serialize_str "Tuple" ++ ':' :: ('[' ::
      (serializeElements true [serialize_u32 a, serialize_u32 b] ++ [']', '\x7d'])))
  | .Struct a =>
    '\x7b' :: (serialize_str "Struct" ++ ':' :: ('\x7b' ::
      (serializeStructFields true [("a", serialize_u32 a)] ++ ['\x7d', '\x7d'])))

/-! Helper lemmas about decimal printing and the lexical runs the decoder
takes; shared by several of the claim theorems below. -/

theorem digitChar_props (d : Nat) (h : d < 10) :
    digitVal (digitChar d) = d ∧ (digitChar d).isDigit = true ∧
    isRustWs (digitChar d) = false ∧ digitChar d ≠ '"' ∧ digitChar d ≠ '\\' ∧
    digitChar d ≠ '+' ∧ digitChar d ≠ '-' := by
  interval_cases d <;> exact ⟨by decide, by decide, by decide, by decide, by decide, by decide, by decide⟩

theorem natToDigitsRevAux_lt (f : Nat) :
    ∀ n, ∀ d ∈ natToDigitsRevAux f n, d < 10 := by
  induction f with
  | zero => intro n d hd; simp [natToDigitsRevAux] at hd
  | succ f ih =>
    intro n d hd
    by_cases hn : n = 0
    · simp [natToDigitsRevAux, hn] at hd
    · simp only [natToDigitsRevAux, if_neg hn, List.mem_cons] at hd
      rcases hd with h | h
      · exact h ▸ Nat.mod_lt _ (by norm_num)
      · exact ih _ d h

theorem foldl_digits_rev (f : Nat) :
    ∀ n acc, n ≤ f →
      List.foldl (fun a c => a * 10 + digitVal c) acc
          (((natToDigitsRevAux f n).map digitChar).reverse)
        = acc * 10 ^ (natToDigitsRevAux f n).length + n := by
  induction f with
  | zero =>
    intro n acc h
    have hn : n = 0 := Nat.le_zero.mp h
    subst hn
    simp [natToDigitsRevAux]
  | succ f ih =>
    intro n acc h
    by_cases hn : n = 0
    · subst hn; simp [natToDigitsRevAux]
    · have hdiv : n / 10 ≤ f := by
        have h1 : n / 10 < n := Nat.div_lt_self (Nat.pos_of_ne_zero hn) (by norm_num)
        omega
      have hmod := (digitChar_props (n % 10) (Nat.mod_lt _ (by norm_num))).1
      simp only [natToDigitsRevAux, if_neg hn, List.map_cons, List.reverse_cons,
        List.foldl_append, List.foldl_cons, List.foldl_nil, List.length_cons]
      rw [ih (n / 10) acc hdiv, hmod]
      have hdm : 10 * (n / 10) + n % 10 = n := Nat.div_add_mod n 10
      rw [pow_succ]
      ring_nf
      omega

theorem digitsToNat_decimalNat (n : Nat) : digitsToNat (decimalNat n) = n := by
  by_cases hn : n = 0
  · subst hn; decide
  · unfold decimalNat digitsToNat
    rw [if_neg hn, foldl_digits_rev n n 0 (le_refl n)]
    simp

theorem decimalNat_props (n : Nat) :
    ∀ c ∈ decimalNat n, c.isDigit = true ∧ isRustWs c = false ∧
      c ≠ '"' ∧ c ≠ '\\' ∧ c ≠ '+' ∧ c ≠ '-' := by
  intro c hc
  by_cases hn : n = 0
  · subst hn
    simp only [decimalNat, if_pos rfl, reduceIte, List.mem_singleton] at hc
    subst hc; exact ⟨by decide, by decide, by decide, by decide, by decide, by decide⟩
  · simp only [decimalNat, if_neg hn, List.mem_reverse, List.mem_map] at hc
    obtain ⟨d, hd, rfl⟩ := hc
    have := digitChar_props d (natToDigitsRevAux_lt n n d hd)
    exact ⟨this.2.1, this.2.2.1, this.2.2.2.1, this.2.2.2.2.1, this.2.2.2.2.2.1, this.2.2.2.2.2.2⟩

theorem decimalNat_ne_nil (n : Nat) : decimalNat n ≠ [] := by
  by_cases hn : n = 0
  · subst hn; decide
  · obtain ⟨f, rfl⟩ := Nat.exists_eq_succ_of_ne_zero hn
    simp [decimalNat, natToDigitsRevAux]

theorem takeWhile_append_all (p : Char → Bool) :
    ∀ (xs ys : List Char), (∀ a ∈ xs, p a = true) → (∀ y ∈ ys.head?, p y = false) →
      (xs ++ ys).takeWhile p = xs ∧ (xs ++ ys).dropWhile p = ys := by
  intro xs
  induction xs with
  | nil =>
    intro ys _ h2
    cases ys with
    | nil => simp
    | cons y yt =>
      have hy : p y = false := h2 y (by simp)
      simp [List.takeWhile_cons, List.dropWhile_cons, hy]
  | cons x xt ih =>
    intro ys h1 h2
    have hx : p x = true := h1 x (by simp)
    have := ih ys (fun a ha => h1 a (by simp [ha])) h2
    simp [List.takeWhile_cons, List.dropWhile_cons, hx, this.1, this.2]

theorem trim_start_cons_not_ws {c : Char} (cs : List Char) (h : isRustWs c = false) :
    trim_start (c :: cs) = c :: cs := by
  simp [trim_start, List.dropWhile_cons, h]

theorem decimalNat_head_ne (n : Nat) (c : Char)
    (hc : c ≠ '+' → c ≠ '-' → False) : (decimalNat n).head? ≠ some c := by
  intro h
  cases hdn : decimalNat n with
  | nil => exact decimalNat_ne_nil n hdn
  | cons c0 ct =>
    rw [hdn] at h
    simp only [List.head?_cons, Option.some.injEq] at h
    subst h
    have := decimalNat_props n c0 (by simp [hdn])
    exact hc this.2.2.2.2.1 this.2.2.2.2.2

theorem rustParseUnsigned_decimal (bound n : Nat) (h : n < bound) :
    rustParseUnsigned bound (decimalNat n) = .ok n := by
  have hplus : (decimalNat n).head? ≠ some '+' :=
    decimalNat_head_ne n '+' (fun h1 _ => h1 rfl)
  have hall : (decimalNat n).all Char.isDigit = true :=
    List.all_eq_true.mpr (fun a ha => (decimalNat_props n a ha).1)
  simp only [rustParseUnsigned, if_neg hplus]
  rw [if_pos ⟨decimalNat_ne_nil n, hall⟩, digitsToNat_decimalNat, if_pos h]

theorem decimalInt_nonneg (i : Int) (h : 0 ≤ i) : decimalInt i = decimalNat i.natAbs := by
  simp [decimalInt, Int.not_lt.mpr h]

theorem decimalInt_neg (i : Int) (h : i < 0) : decimalInt i = '-' :: decimalNat i.natAbs := by
  simp [decimalInt, h]

theorem rustParseSigned_decimal (lo hi i : Int) (h1 : lo ≤ i) (h2 : i ≤ hi) :
    rustParseSigned lo hi (decimalInt i) = .ok i := by
  have hall : (decimalNat i.natAbs).all Char.isDigit = true :=
    List.all_eq_true.mpr (fun a ha => (decimalNat_props i.natAbs a ha).1)
  by_cases hneg : i < 0
  · rw [decimalInt_neg i hneg]
    have habs : -((digitsToNat (decimalNat i.natAbs) : Int)) = i := by
      rw [digitsToNat_decimalNat]; omega
    simp only [rustParseSigned, List.head?_cons, if_pos rfl, List.tail_cons]
    have hcond : decimalNat i.natAbs ≠ [] ∧ (decimalNat i.natAbs).all Char.isDigit = true :=
      ⟨decimalNat_ne_nil i.natAbs, hall⟩
    rw [if_pos hcond, habs, if_pos h1]
    simp
  · have hpos : (0 : Int) ≤ i := Int.not_lt.mp hneg
    rw [decimalInt_nonneg i hpos]
    have hminus : (decimalNat i.natAbs).head? ≠ some '-' :=
      decimalNat_head_ne i.natAbs '-' (fun _ h2 => h2 rfl)
    have hplus : (decimalNat i.natAbs).head? ≠ some '+' :=
      decimalNat_head_ne i.natAbs '+' (fun h1 _ => h1 rfl)
    have habs : ((digitsToNat (decimalNat i.natAbs) : Int)) = i := by
      rw [digitsToNat_decimalNat]; omega
    simp only [rustParseSigned, if_neg hminus, if_neg hplus]
    have hcond : decimalNat i.natAbs ≠ [] ∧ (decimalNat i.natAbs).all Char.isDigit = true :=
      ⟨decimalNat_ne_nil i.natAbs, hall⟩
    rw [if_pos hcond, habs, if_pos h2]

theorem parse_unsigned_decimal (bound n : Nat) (rest : List Char) (hb : n < bound)
    (hrest : ∀ y ∈ rest.head?, y.isDigit = false) :
    parse_unsigned bound (decimalNat n ++ rest) = .ok (n, rest) := by
  obtain ⟨ht, hd⟩ := takeWhile_append_all Char.isDigit (decimalNat n) rest
    (fun a ha => (decimalNat_props n a ha).1) hrest
  simp only [parse_unsigned, ht, hd, rustParseUnsigned_decimal bound n hb, Except.map]

theorem decimalInt_run (i : Int) :
    ∀ a ∈ decimalInt i, (a.isDigit || a = '-') = true := by
  intro a ha
  by_cases hneg : i < 0
  · rw [decimalInt_neg i hneg, List.mem_cons] at ha
    rcases ha with rfl | ha
    · simp
    · simp [(decimalNat_props i.natAbs a ha).1]
  · rw [decimalInt_nonneg i (Int.not_lt.mp hneg)] at ha
    simp [(decimalNat_props i.natAbs a ha).1]

theorem parse_signed_decimal (lo hi i : Int) (rest : List Char)
    (h1 : lo ≤ i) (h2 : i ≤ hi)
    (hrest : ∀ y ∈ rest.head?, (y.isDigit || y = '-') = false) :
    parse_signed lo hi (decimalInt i ++ rest) = .ok (i, rest) := by
  obtain ⟨ht, hd⟩ := takeWhile_append_all (fun c => c.isDigit || c = '-')
    (decimalInt i) rest (decimalInt_run i) hrest
  simp only [parse_signed, ht, hd, rustParseSigned_decimal lo hi i h1 h2, Except.map]

theorem parseStringLoop_clean :
    ∀ (content rest : List Char), (∀ c ∈ content, c ≠ '"' ∧ c ≠ '\\') →
      parseStringLoop (content ++ '"' :: rest) = .ok (content, rest) := by
  intro content
  induction content with
  | nil =>
    intro rest _
    rw [List.nil_append, parseStringLoop.eq_def]
    simp
  | cons c ct ih =>
    intro rest h
    have hc := h c (by simp)
    have hrec := ih rest (fun a ha => h a (by simp [ha]))
    rw [List.cons_append, parseStringLoop.eq_def]
    simp only [if_neg hc.1, if_neg hc.2, hrec, Except.map]

theorem parse_string_quoted (content rest : List Char)
    (h : ∀ c ∈ content, c ≠ '"' ∧ c ≠ '\\') :
    parse_string ('"' :: (content ++ '"' :: rest)) = .ok (String.mk content, rest) := by
  simp [parse_string, parseStringLoop_clean content rest h, Except.map]

/-! Claim theorems. -/

/-- C1.  The claimed scalar round-trip `decode(encode(v)) == v` fails for
strings: the encoder escapes through Rust `escape_default`, so the string
holding the single backspace character is encoded as the Rust-style escape
`\u` + brace + `8` + brace, which the decoder's JSON-style `\uXXXX` escape
parser rejects (the brace is not a hex digit), so decoding the encoding is
an `InvalidUnicodeEscapeSequence` error instead of the original string. -/
theorem string_roundtrip_fails_on_backspace :
    serialize_str (String.mk ['\x08']) = "\"\\u\x7b8\x7d\"".toList ∧
    deserialize_str (serialize_str (String.mk ['\x08'])) =
      .error .InvalidUnicodeEscapeSequence := by
  decide

/-- C2.  `serialize_f32`/`serialize_f64` test `is_finite` the wrong way
round: every finite float (such as the repository test value 1.3) is
rejected with the NaN error, while a NaN is passed on to the formatter and
encodes successfully. -/
theorem finite_float_encode_rejected :
    serialize_f32 (Fp.finite "1.3") = .error .NaN ∧
    serialize_f64 (Fp.finite "1.3") = .error .NaN ∧
    serialize_f64 Fp.nan = .ok (formatFinite Fp.nan) := by
  decide

/-- C4.  The decoder does not consume the `null` token in the two cases the
claim singles out: the float operation returns NaN with the cursor still on
`null`, and the option operation reports absence with the cursor still on
`null`; consequently a `null` inside a compound derails the comma cursor
(decoding the float sequence body `null,2.5]` fails on the unconsumed
`n`). -/
theorem null_token_not_consumed :
    deserialize_f32 "null".toList = .ok (Fp.nan, "null".toList) ∧
    deserialize_option deserialize_u8 "null,9".toList = .ok (none, "null,9".toList) ∧
    seqElemsLoop deserialize_f32 10 true "null,2.5]".toList =
      .error (.UnexpectedToken 'n') := by
  decide

/-- C5.  Encoding the eight characters quote, backslash, slash, backspace,
form feed, newline, carriage return, tab does not produce the JSON escapes
the claim (and the repository's own test) states: the slash stays bare and
backspace/form feed come out as Rust-style brace escapes.  The decode half
of the claim does hold: `"\u0022"` decodes to the one-character quote
string. -/
theorem string_escaping_diverges :
    serialize_str (String.mk ['"', '\\', '/', '\x08', '\x0c', '\n', '\r', '\t']) =
      "\"\\\"\\\\/\\u\x7b8\x7d\\u\x7bc\x7d\\n\\r\\t\"".toList ∧
    serialize_str (String.mk ['"', '\\', '/', '\x08', '\x0c', '\n', '\r', '\t']) ≠
      "\"\\\"\\\\\\/\\b\\f\\n\\r\\t\"".toList ∧
    deserialize_str "\"\\u0022\"".toList = .ok ("\"", []) := by
  decide

/-- C6.  Decoding accepts all four boolean literals with the stated values,
and encoding emits exactly `1`/`0` for the two booleans (`Bool` is
exhausted by the two conjuncts, so `true`/`false` are never emitted). -/
theorem bool_literal_forms :
    deserialize_bool "1".toList = .ok (true, []) ∧
    deserialize_bool "0".toList = .ok (false, []) ∧
    deserialize_bool "true".toList = .ok (true, []) ∧
    deserialize_bool "false".toList = .ok (false, []) ∧
    serialize_bool true = "1".toList ∧
    serialize_bool false = "0".toList := by
  decide

/-- C8.  The four variant shapes decode from their literal forms, re-encode
to exactly the same text, and the object form with an absent payload is
rejected for the unit variant (the tag is parsed, then the mandatory `:` is
missing, so the closing brace is the unexpected token). -/
theorem enum_variant_shapes :
    decodeE "\"Unit\"".toList = .ok (E.Unit, []) ∧
    decodeE "\x7b\"Newtype\":1\x7d".toList = .ok (E.Newtype 1, []) ∧
    decodeE "\x7b\"Tuple\":[1,2]\x7d".toList = .ok (E.Tuple 1 2, []) ∧
    decodeE "\x7b\"Struct\":\x7b\"a\":1\x7d\x7d".toList = .ok (E.Struct 1, []) ∧
    encodeE E.Unit = "\"Unit\"".toList ∧
    encodeE (E.Newtype 1) = "\x7b\"Newtype\":1\x7d".toList ∧
    encodeE (E.Tuple 1 2) = "\x7b\"Tuple\":[1,2]\x7d".toList ∧
    encodeE (E.Struct 1) = "\x7b\"Struct\":\x7b\"a\":1\x7d\x7d".toList ∧
    decodeE "\x7b\"Unit\"\x7d".toList = .error (.UnexpectedToken '\x7d') := by
  decide

/-- C10 counterexample.  The claimed universal fails: `123` is a complete
top-level u8 value (decoding it alone succeeds) and `456` is non-whitespace
trailing text, yet decoding their concatenation does not return the prefix
value — the digit lexer maximal-munches the whole run `123456`, which
overflows u8, so the entry point fails with the integer parse error. -/
theorem trailing_digits_extend_leading_number :
    from_str deserialize_u8 "123".toList = .ok 123 ∧
    from_str deserialize_u8 ("123".toList ++ "456".toList) = .error .ParseIntError := by
  decide

/-- C10 amended.  `from_str` performs no check that the whole input was
consumed: whenever the target's root decode succeeds on the input, yielding
a value next to any remaining text, the entry point returns that value and
silently discards the remainder; in particular, for a self-delimiting
leading value (a boolean literal, a quoted string) arbitrary trailing text
is ignored.  (Per the counterexample, this ignores only what the leading
token's own lexer does not munch: trailing digits after a bare number
extend the token instead.) -/
theorem from_str_no_consumption_check :
    (∀ (α : Type) (root : List Char → Except JsonError (α × List Char))
      (s : List Char) (v : α) (rest : List Char),
      root s = .ok (v, rest) → from_str root s = .ok v) ∧
    (∀ junk : List Char, from_str deserialize_bool ('1' :: junk) = .ok true) ∧
    (∀ junk : List Char,
      from_str deserialize_str ('"' :: 'a' :: 'b' :: '"' :: junk) = .ok "ab") := by
  refine ⟨?_, ?_, ?_⟩
  · intro α root s v rest h
    simp [from_str, h, Except.map]
  · intro junk
    show (parse_bool (trim_start ('1' :: junk))).map (fun p => p.1) = .ok true
    rw [trim_start_cons_not_ws _ (by decide)]
    simp [parse_bool, List.isPrefixOf, Except.map]
  · intro junk
    show (parse_string (trim_start ('"' :: 'a' :: 'b' :: '"' :: junk))).map (fun p => p.1)
        = .ok "ab"
    rw [trim_start_cons_not_ws _ (by decide)]
    have h : ∀ c ∈ ['a', 'b'], c ≠ '"' ∧ c ≠ '\\' := by decide
    have hq := parse_string_quoted ['a', 'b'] junk h
    simp only [List.cons_append, List.nil_append] at hq
    rw [hq]
    rfl

/-- C3.  Whenever the next token of the remaining input (after the
whitespace skip every float operation performs) is the literal `null`, both
float-width operations succeed and produce the NaN value rather than an
error. -/
theorem null_decodes_to_nan (s : List Char)
    (h : List.isPrefixOf ['n', 'u', 'l', 'l'] (trim_start s) = true) :
    deserialize_f32 s = .ok (Fp.nan, trim_start s) ∧
    deserialize_f64 s = .ok (Fp.nan, trim_start s) ∧ Fp.isNan Fp.nan = true := by
  refine ⟨?_, ?_, rfl⟩ <;>
    simp only [deserialize_f32, deserialize_f64, parse_float, h, if_true]

/-- Witness for C3 at the concrete input `  null`. -/
theorem null_decodes_to_nan_witness :
    deserialize_f32 "  null".toList = .ok (Fp.nan, trim_start "  null".toList) :=
  (null_decodes_to_nan "  null".toList (by decide)).1

/-- C7.  64-bit and 128-bit integers are wire-encoded as the decimal digits
(with sign for negative values) wrapped in quotes, and decoding parses the
quoted contents as the target type, round-tripping every in-range value;
integers of 32 bits and below are encoded as the bare decimal literal and
round-trip likewise. -/
theorem integer_wire_forms :
    (∀ n : Nat, n < 2 ^ 64 →
      serialize_u64 n = '"' :: (decimalNat n ++ ['"']) ∧
      deserialize_u64 (serialize_u64 n) = .ok (n, [])) ∧
    (∀ i : Int, -(2 ^ 63) ≤ i → i < 2 ^ 63 →
      serialize_i64 i = '"' :: (decimalInt i ++ ['"']) ∧
      deserialize_i64 (serialize_i64 i) = .ok (i, [])) ∧
    (∀ n : Nat, n < 2 ^ 128 → deserialize_u128 (serialize_u128 n) = .ok (n, [])) ∧
    (∀ i : Int, -(2 ^ 127) ≤ i → i < 2 ^ 127 →
      deserialize_i128 (serialize_i128 i) = .ok (i, [])) ∧
    (∀ n : Nat, n < 2 ^ 32 →
      serialize_u32 n = decimalNat n ∧ deserialize_u32 (serialize_u32 n) = .ok (n, [])) ∧
    (∀ i : Int, -(2 ^ 31) ≤ i → i < 2 ^ 31 →
      serialize_i32 i = decimalInt i ∧ deserialize_i32 (serialize_i32 i) = .ok (i, [])) ∧
    (∀ n : Nat, n < 2 ^ 8 → deserialize_u8 (serialize_u8 n) = .ok (n, [])) := by
  have hquote : isRustWs '"' = false := by decide
  have hstrNat : ∀ n : Nat, ∀ c ∈ decimalNat n, c ≠ '"' ∧ c ≠ '\\' := by
    intro n c hc
    have := decimalNat_props n c hc
    exact ⟨this.2.2.1, this.2.2.2.1⟩
  have hstrInt : ∀ i : Int, ∀ c ∈ decimalInt i, c ≠ '"' ∧ c ≠ '\\' := by
    intro i c hc
    by_cases hneg : i < 0
    · rw [decimalInt_neg i hneg, List.mem_cons] at hc
      rcases hc with rfl | hc
      · exact ⟨by decide, by decide⟩
      · exact hstrNat _ c hc
    · rw [decimalInt_nonneg i (Int.not_lt.mp hneg)] at hc
      exact hstrNat _ c hc
  have hUq : ∀ (bound n : Nat), n < bound →
      deserializeQuotedUnsigned bound ('"' :: (decimalNat n ++ ['"'])) = .ok (n, []) := by
    intro bound n hb
    unfold deserializeQuotedUnsigned
    rw [trim_start_cons_not_ws _ hquote]
    have := parse_string_quoted (decimalNat n) [] (hstrNat n)
    simp only [this, rustParseUnsigned_decimal bound n hb]
  have hIq : ∀ (lo hi i : Int), lo ≤ i → i ≤ hi →
      deserializeQuotedSigned lo hi ('"' :: (decimalInt i ++ ['"'])) = .ok (i, []) := by
    intro lo hi i h1 h2
    unfold deserializeQuotedSigned
    rw [trim_start_cons_not_ws _ hquote]
    have := parse_string_quoted (decimalInt i) [] (hstrInt i)
    simp only [this, rustParseSigned_decimal lo hi i h1 h2]
  have hUb : ∀ (bound n : Nat), n < bound →
      parse_unsigned bound (trim_start (decimalNat n)) = .ok (n, []) := by
    intro bound n hb
    have hne := decimalNat_ne_nil n
    cases hdn : decimalNat n with
    | nil => exact absurd hdn hne
    | cons c0 ct =>
      have hws : isRustWs c0 = false := (decimalNat_props n c0 (by simp [hdn])).2.1
      rw [← hdn]
      rw [hdn, trim_start_cons_not_ws _ hws, ← hdn]
      have := parse_unsigned_decimal bound n [] hb (by simp)
      simpa using this
  have hIb : ∀ (lo hi i : Int), lo ≤ i → i ≤ hi →
      parse_signed lo hi (trim_start (decimalInt i)) = .ok (i, []) := by
    intro lo hi i h1 h2
    have hws : ∀ c ∈ decimalInt i, isRustWs c = false := by
      intro c hc
      by_cases hneg : i < 0
      · rw [decimalInt_neg i hneg, List.mem_cons] at hc
        rcases hc with rfl | hc
        · decide
        · exact (decimalNat_props _ c hc).2.1
      · rw [decimalInt_nonneg i (Int.not_lt.mp hneg)] at hc
        exact (decimalNat_props _ c hc).2.1
    have hne : decimalInt i ≠ [] := by
      by_cases hneg : i < 0
      · rw [decimalInt_neg i hneg]; simp
      · rw [decimalInt_nonneg i (Int.not_lt.mp hneg)]; exact decimalNat_ne_nil _
    cases hdn : decimalInt i with
    | nil => exact absurd hdn hne
    | cons c0 ct =>
      have hws0 : isRustWs c0 = false := hws c0 (by simp [hdn])
      rw [← hdn]
      rw [hdn, trim_start_cons_not_ws _ hws0, ← hdn]
      have := parse_signed_decimal lo hi i [] h1 h2 (by simp)
      simpa using this
  refine ⟨?_, ?_, ?_, ?_, ?_, ?_, ?_⟩
  · intro n hb
    exact ⟨rfl, hUq (2 ^ 64) n hb⟩
  · intro i h1 h2
    exact ⟨rfl, hIq (-(2 ^ 63)) (2 ^ 63 - 1) i h1 (by omega)⟩
  · intro n hb
    exact hUq (2 ^ 128) n hb
  · intro i h1 h2
    exact hIq (-(2 ^ 127)) (2 ^ 127 - 1) i h1 (by omega)
  · intro n hb
    exact ⟨rfl, hUb (2 ^ 32) n hb⟩
  · intro i h1 h2
    exact ⟨rfl, hIb (-(2 ^ 31)) (2 ^ 31 - 1) i h1 (by omega)⟩
  · intro n hb
    exact hUb (2 ^ 8) n hb

/-- Witness for C7 at the specification's own example value: `1234512345`
encodes quoted at 64 bits and bare at 32 bits, and both decode back. -/
theorem integer_wire_forms_witness :
    serialize_u64 1234512345 = "\"1234512345\"".toList ∧
    deserialize_u64 (serialize_u64 1234512345) = .ok (1234512345, []) ∧
    serialize_u32 1234512345 = "1234512345".toList ∧
    deserialize_u32 (serialize_u32 1234512345) = .ok (1234512345, []) := by
  have h64 := (integer_wire_forms.1 1234512345 (by norm_num)).2
  have h32 := (integer_wire_forms.2.2.2.2.1 1234512345 (by norm_num)).2
  exact ⟨by decide, h64, by decide, h32⟩

theorem append_serializeElements_false :
    ∀ (fs : List (List Char)) (f : List Char),
      f ++ serializeElements false fs = specCommaJoin (f :: fs) := by
  intro fs
  induction fs with
  | nil => intro f; simp [serializeElements, specCommaJoin]
  | cons g gs ih =>
    intro f
    have h1 : specCommaJoin (f :: g :: gs) = f ++ ',' :: specCommaJoin (g :: gs) := rfl
    have h2 : serializeElements false (g :: gs) = ',' :: (g ++ serializeElements false gs) := rfl
    rw [h2, h1, ← ih g]

theorem serializeElements_spec (fs : List (List Char)) :
    serializeElements true fs = specCommaJoin fs := by
  cases fs with
  | nil => rfl
  | cons f ft =>
    have h : serializeElements true (f :: ft) = f ++ serializeElements false ft := rfl
    rw [h, append_serializeElements_false]

theorem append_serializeMapPairs_false :
    ∀ (ps : List (List Char × List Char)) (f : List Char),
      f ++ serializeMapPairs false ps = specCommaJoin (f :: ps.map (fun p => p.1 ++ ':' :: p.2)) := by
  intro ps
  induction ps with
  | nil => intro f; simp [serializeMapPairs, specCommaJoin]
  | cons p pt ih =>
    intro f
    have h1 : specCommaJoin (f :: (p.1 ++ ':' :: p.2) :: pt.map (fun q => q.1 ++ ':' :: q.2))
        = f ++ ',' :: specCommaJoin ((p.1 ++ ':' :: p.2) :: pt.map (fun q => q.1 ++ ':' :: q.2)) := rfl
    have h2 : serializeMapPairs false (p :: pt)
        = ',' :: (p.1 ++ ':' :: (p.2 ++ serializeMapPairs false pt)) := rfl
    rw [List.map_cons, h1, ← ih (p.1 ++ ':' :: p.2), h2]
    simp [List.append_assoc]

theorem serializeMapPairs_spec (ps : List (List Char × List Char)) :
    serializeMapPairs true ps = specCommaJoin (ps.map (fun p => p.1 ++ ':' :: p.2)) := by
  cases ps with
  | nil => rfl
  | cons p pt =>
    have h : serializeMapPairs true (p :: pt)
        = (p.1 ++ ':' :: p.2) ++ serializeMapPairs false pt := by
      show p.1 ++ ':' :: (p.2 ++ serializeMapPairs false pt)
          = (p.1 ++ ':' :: p.2) ++ serializeMapPairs false pt
      simp [List.append_assoc]
    rw [List.map_cons, h, append_serializeMapPairs_false]

theorem append_serializeStructFields_false :
    ∀ (fs : List (String × List Char)) (f : List Char),
      f ++ serializeStructFields false fs
        = specCommaJoin (f :: fs.map (fun q => serialize_str q.1 ++ ':' :: q.2)) := by
  intro fs
  induction fs with
  | nil => intro f; simp [serializeStructFields, specCommaJoin]
  | cons p pt ih =>
    intro f
    have h1 : specCommaJoin (f :: (serialize_str p.1 ++ ':' :: p.2)
          :: pt.map (fun q => serialize_str q.1 ++ ':' :: q.2))
        = f ++ ',' :: specCommaJoin ((serialize_str p.1 ++ ':' :: p.2)
          :: pt.map (fun q => serialize_str q.1 ++ ':' :: q.2)) := rfl
    have h2 : serializeStructFields false (p :: pt)
        = ',' :: (serialize_str p.1 ++ ':' :: (p.2 ++ serializeStructFields false pt)) := rfl
    rw [List.map_cons, h1, ← ih (serialize_str p.1 ++ ':' :: p.2), h2]
    simp [List.append_assoc]

theorem serializeStructFields_spec (fs : List (String × List Char)) :
    serializeStructFields true fs
      = specCommaJoin (fs.map (fun q => serialize_str q.1 ++ ':' :: q.2)) := by
  cases fs with
  | nil => rfl
  | cons p pt =>
    have h : serializeStructFields true (p :: pt)
        = (serialize_str p.1 ++ ':' :: p.2) ++ serializeStructFields false pt := by
      show serialize_str p.1 ++ ':' :: (p.2 ++ serializeStructFields false pt)
          = (serialize_str p.1 ++ ':' :: p.2) ++ serializeStructFields false pt
      simp [List.append_assoc]
    rw [List.map_cons, h, append_serializeStructFields_false]

theorem specCommaJoin_cons_flatten :
    ∀ (fs : List (List Char)) (f : List Char),
      specCommaJoin (f :: fs) = f ++ (fs.map (fun x => ',' :: x)).flatten := by
  intro fs
  induction fs with
  | nil => intro f; simp [specCommaJoin]
  | cons g gs ih =>
    intro f
    have h1 : specCommaJoin (f :: g :: gs) = f ++ ',' :: specCommaJoin (g :: gs) := rfl
    rw [h1, ih g]
    simp

theorem trim_start_eq_self (s : List Char) (h : ∀ y ∈ s.head?, isRustWs y = false) :
    trim_start s = s := by
  cases s with
  | nil => rfl
  | cons c cs => exact trim_start_cons_not_ws cs (h c (by simp))

theorem decimalNat_append_head_not_ws (n : Nat) (tail : List Char) :
    ∀ y ∈ (decimalNat n ++ tail).head?, isRustWs y = false := by
  cases hdn : decimalNat n with
  | nil => exact absurd hdn (decimalNat_ne_nil n)
  | cons c0 ct =>
    intro y hy
    have hy0 : y = c0 := by
      simp only [List.cons_append, List.head?_cons, Option.mem_def, Option.some.injEq] at hy
      exact hy.symm
    subst hy0
    exact (decimalNat_props n y (by simp [hdn])).2.1

theorem deserialize_u8_decimal (n : Nat) (tail : List Char) (hb : n < 2 ^ 8)
    (htail : ∀ y ∈ tail.head?, y.isDigit = false) :
    deserialize_u8 (decimalNat n ++ tail) = .ok (n, tail) := by
  unfold deserialize_u8
  rw [trim_start_eq_self _ (decimalNat_append_head_not_ws n tail)]
  exact parse_unsigned_decimal (2 ^ 8) n tail hb htail

theorem flatten_close_head_not_digit (xt : List Nat) (rest : List Char) (close : Char)
    (hc : close.isDigit = false) :
    ∀ y ∈ ((xt.map (fun z => ',' :: decimalNat z)).flatten ++ close :: rest).head?,
      y.isDigit = false := by
  cases xt with
  | nil =>
    intro y hy
    simp only [List.map_nil, List.flatten_nil, List.nil_append, List.head?_cons,
      Option.mem_def, Option.some.injEq] at hy
    exact hy ▸ hc
  | cons z zt =>
    intro y hy
    simp only [List.map_cons, List.flatten_cons, List.cons_append, List.head?_cons,
      Option.mem_def, Option.some.injEq] at hy
    exact hy ▸ (by decide : (',').isDigit = false)

theorem seqElemsLoop_decimal_false :
    ∀ (xs : List Nat) (fuel : Nat) (rest : List Char),
      (∀ x ∈ xs, x < 2 ^ 8) → xs.length < fuel →
      seqElemsLoop deserialize_u8 fuel false
        ((xs.map (fun z => ',' :: decimalNat z)).flatten ++ ']' :: rest)
        = .ok (xs, ']' :: rest) := by
  intro xs
  induction xs with
  | nil =>
    intro fuel rest _ hf
    obtain ⟨f, rfl⟩ : ∃ f, fuel = f + 1 := ⟨fuel - 1, by omega⟩
    have ht : trim_start (']' :: rest) = ']' :: rest := trim_start_cons_not_ws rest (by decide)
    rw [List.map_nil, List.flatten_nil, List.nil_append, seqElemsLoop.eq_def]
    simp [ht]
  | cons x xt ih =>
    intro fuel rest hb hf
    obtain ⟨f, rfl⟩ : ∃ f, fuel = f + 1 := ⟨fuel - 1, by omega⟩
    have hshape : ((x :: xt).map (fun z => ',' :: decimalNat z)).flatten ++ ']' :: rest
        = ',' :: (decimalNat x ++ ((xt.map (fun z => ',' :: decimalNat z)).flatten ++ ']' :: rest)) := by
      simp [List.append_assoc]
    rw [hshape]
    have ht := trim_start_cons_not_ws
      (decimalNat x ++ ((xt.map (fun z => ',' :: decimalNat z)).flatten ++ ']' :: rest))
      (show isRustWs ',' = false by decide)
    have helem := deserialize_u8_decimal x
      ((xt.map (fun z => ',' :: decimalNat z)).flatten ++ ']' :: rest)
      (hb x (by simp)) (flatten_close_head_not_digit xt rest ']' (by decide))
    have hrec := ih f rest (fun z hz => hb z (by simp [hz])) (by simp at hf ⊢; omega)
    rw [seqElemsLoop.eq_def]
    simp only [ht, reduceIte]
    rw [if_neg (show ¬((',' : Char) = ']') by decide)]
    simp only [Bool.false_eq_true, if_false]
    simp only [helem, hrec]



theorem seqElemsLoop_decimal (xs : List Nat) (fuel : Nat) (rest : List Char)
    (hb : ∀ x ∈ xs, x < 2 ^ 8) (hf : xs.length < fuel) :
    seqElemsLoop deserialize_u8 fuel true (specCommaJoin (xs.map decimalNat) ++ ']' :: rest)
      = .ok (xs, ']' :: rest) := by
  cases xs with
  | nil =>
    obtain ⟨f, rfl⟩ : ∃ f, fuel = f + 1 := ⟨fuel - 1, by omega⟩
    have ht : trim_start (']' :: rest) = ']' :: rest := trim_start_cons_not_ws rest (by decide)
    rw [show specCommaJoin (([] : List Nat).map decimalNat) = [] from rfl,
      List.nil_append, seqElemsLoop.eq_def]
    simp [ht]
  | cons x xt =>
    obtain ⟨f, rfl⟩ : ∃ f, fuel = f + 1 := ⟨fuel - 1, by omega⟩
    have hshape : specCommaJoin ((x :: xt).map decimalNat) ++ ']' :: rest
        = decimalNat x ++ ((xt.map (fun z => ',' :: decimalNat z)).flatten ++ ']' :: rest) := by
      rw [List.map_cons, specCommaJoin_cons_flatten, List.map_map]
      simp only [List.append_assoc, Function.comp_def]
    rw [hshape]
    obtain ⟨c0, ct, hdn⟩ : ∃ c0 ct, decimalNat x = c0 :: ct := by
      cases hdn : decimalNat x with
      | nil => exact absurd hdn (decimalNat_ne_nil x)
      | cons a b => exact ⟨a, b, rfl⟩
    have hdig : c0.isDigit = true := (decimalNat_props x c0 (by simp [hdn])).1
    have hne : ¬(c0 = ']') := by
      intro he
      rw [he] at hdig
      exact absurd hdig (by decide)
    have hws : isRustWs c0 = false := (decimalNat_props x c0 (by simp [hdn])).2.1
    have helem := deserialize_u8_decimal x
      ((xt.map (fun z => ',' :: decimalNat z)).flatten ++ ']' :: rest)
      (hb x (by simp)) (flatten_close_head_not_digit xt rest ']' (by decide))
    have hrec := seqElemsLoop_decimal_false xt f rest (fun z hz => hb z (by simp [hz]))
      (by simp at hf ⊢; omega)
    rw [hdn, List.cons_append] at helem ⊢
    have ht := trim_start_cons_not_ws
      (ct ++ ((xt.map (fun z => ',' :: decimalNat z)).flatten ++ ']' :: rest)) hws
    rw [seqElemsLoop.eq_def]
    simp only [ht, reduceIte]
    rw [if_neg hne]
    simp only [helem, hrec]



theorem pairs_close_head_not_digit (pt : List (Nat × Nat)) (rest : List Char) (close : Char)
    (hc : close.isDigit = false) :
    ∀ y ∈ ((pt.map (fun q => ',' :: (decimalNat q.1 ++ ':' :: decimalNat q.2))).flatten
        ++ close :: rest).head?, y.isDigit = false := by
  cases pt with
  | nil =>
    intro y hy
    simp only [List.map_nil, List.flatten_nil, List.nil_append, List.head?_cons,
      Option.mem_def, Option.some.injEq] at hy
    exact hy ▸ hc
  | cons q qt =>
    intro y hy
    simp only [List.map_cons, List.flatten_cons, List.cons_append, List.head?_cons,
      Option.mem_def, Option.some.injEq] at hy
    exact hy ▸ (by decide : (',').isDigit = false)

theorem colon_head_not_digit (tail : List Char) :
    ∀ y ∈ (':' :: tail).head?, y.isDigit = false := by
  intro y hy
  simp only [List.head?_cons, Option.mem_def, Option.some.injEq] at hy
  exact hy ▸ (by decide : (':').isDigit = false)

theorem mapPairsLoop_decimal_false :
    ∀ (ps : List (Nat × Nat)) (fuel : Nat) (rest : List Char),
      (∀ p ∈ ps, p.1 < 2 ^ 8 ∧ p.2 < 2 ^ 8) → ps.length < fuel →
      mapPairsLoop deserialize_u8 deserialize_u8 fuel false
        ((ps.map (fun q => ',' :: (decimalNat q.1 ++ ':' :: decimalNat q.2))).flatten
          ++ '\x7d' :: rest)
        = .ok (ps, '\x7d' :: rest) := by
  intro ps
  induction ps with
  | nil =>
    intro fuel rest _ hf
    obtain ⟨f, rfl⟩ : ∃ f, fuel = f + 1 := ⟨fuel - 1, by omega⟩
    have ht : trim_start ('\x7d' :: rest) = '\x7d' :: rest :=
      trim_start_cons_not_ws rest (by decide)
    rw [List.map_nil, List.flatten_nil, List.nil_append, mapPairsLoop.eq_def]
    simp [ht]
  | cons p pt ih =>
    intro fuel rest hb hf
    obtain ⟨f, rfl⟩ : ∃ f, fuel = f + 1 := ⟨fuel - 1, by omega⟩
    have hshape : ((p :: pt).map (fun q => ',' :: (decimalNat q.1 ++ ':' :: decimalNat q.2))).flatten
          ++ '\x7d' :: rest
        = ',' :: (decimalNat p.1 ++ ':' :: (decimalNat p.2 ++
            ((pt.map (fun q => ',' :: (decimalNat q.1 ++ ':' :: decimalNat q.2))).flatten
              ++ '\x7d' :: rest))) := by
      simp [List.append_assoc]
    rw [hshape]
    have ht := trim_start_cons_not_ws
      (decimalNat p.1 ++ ':' :: (decimalNat p.2 ++
        ((pt.map (fun q => ',' :: (decimalNat q.1 ++ ':' :: decimalNat q.2))).flatten
          ++ '\x7d' :: rest)))
      (show isRustWs ',' = false by decide)
    have hkey := deserialize_u8_decimal p.1
      (':' :: (decimalNat p.2 ++
        ((pt.map (fun q => ',' :: (decimalNat q.1 ++ ':' :: decimalNat q.2))).flatten
          ++ '\x7d' :: rest)))
      (hb p (by simp)).1 (colon_head_not_digit _)
    have hcolon := trim_start_cons_not_ws
      (decimalNat p.2 ++
        ((pt.map (fun q => ',' :: (decimalNat q.1 ++ ':' :: decimalNat q.2))).flatten
          ++ '\x7d' :: rest))
      (show isRustWs ':' = false by decide)
    have hval := deserialize_u8_decimal p.2
      ((pt.map (fun q => ',' :: (decimalNat q.1 ++ ':' :: decimalNat q.2))).flatten
        ++ '\x7d' :: rest)
      (hb p (by simp)).2 (pairs_close_head_not_digit pt rest '\x7d' (by decide))
    have hrec := ih f rest (fun q hq => hb q (by simp [hq])) (by simp at hf ⊢; omega)
    rw [mapPairsLoop.eq_def]
    simp only [ht, reduceIte]
    rw [if_neg (show ¬((',' : Char) = '\x7d') by decide)]
    simp only [Bool.false_eq_true, if_false]
    simp only [hkey]
    simp only [hcolon, reduceIte]
    simp only [hval, hrec]

theorem mapPairsLoop_decimal (ps : List (Nat × Nat)) (fuel : Nat) (rest : List Char)
    (hb : ∀ p ∈ ps, p.1 < 2 ^ 8 ∧ p.2 < 2 ^ 8) (hf : ps.length < fuel) :
    mapPairsLoop deserialize_u8 deserialize_u8 fuel true
      (specCommaJoin (ps.map (fun q => decimalNat q.1 ++ ':' :: decimalNat q.2))
        ++ '\x7d' :: rest)
      = .ok (ps, '\x7d' :: rest) := by
  cases ps with
  | nil =>
    obtain ⟨f, rfl⟩ : ∃ f, fuel = f + 1 := ⟨fuel - 1, by omega⟩
    have ht : trim_start ('\x7d' :: rest) = '\x7d' :: rest :=
      trim_start_cons_not_ws rest (by decide)
    rw [show specCommaJoin (([] : List (Nat × Nat)).map
        (fun q => decimalNat q.1 ++ ':' :: decimalNat q.2)) = [] from rfl,
      List.nil_append, mapPairsLoop.eq_def]
    simp [ht]
  | cons p pt =>
    obtain ⟨f, rfl⟩ : ∃ f, fuel = f + 1 := ⟨fuel - 1, by omega⟩
    have hshape : specCommaJoin ((p :: pt).map (fun q => decimalNat q.1 ++ ':' :: decimalNat q.2))
          ++ '\x7d' :: rest
        = decimalNat p.1 ++ ':' :: (decimalNat p.2 ++
            ((pt.map (fun q => ',' :: (decimalNat q.1 ++ ':' :: decimalNat q.2))).flatten
              ++ '\x7d' :: rest)) := by
      rw [List.map_cons, specCommaJoin_cons_flatten, List.map_map]
      simp only [List.append_assoc, Function.comp_def, List.cons_append]
    rw [hshape]
    obtain ⟨c0, ct, hdn⟩ : ∃ c0 ct, decimalNat p.1 = c0 :: ct := by
      cases hdn : decimalNat p.1 with
      | nil => exact absurd hdn (decimalNat_ne_nil p.1)
      | cons a b => exact ⟨a, b, rfl⟩
    have hdig : c0.isDigit = true := (decimalNat_props p.1 c0 (by simp [hdn])).1
    have hne : ¬(c0 = '\x7d') := by
      intro he
      rw [he] at hdig
      exact absurd hdig (by decide)
    have hws : isRustWs c0 = false := (decimalNat_props p.1 c0 (by simp [hdn])).2.1
    have hkey := deserialize_u8_decimal p.1
      (':' :: (decimalNat p.2 ++
        ((pt.map (fun q => ',' :: (decimalNat q.1 ++ ':' :: decimalNat q.2))).flatten
          ++ '\x7d' :: rest)))
      (hb p (by simp)).1 (colon_head_not_digit _)
    have hcolon := trim_start_cons_not_ws
      (decimalNat p.2 ++
        ((pt.map (fun q => ',' :: (decimalNat q.1 ++ ':' :: decimalNat q.2))).flatten
          ++ '\x7d' :: rest))
      (show isRustWs ':' = false by decide)
    have hval := deserialize_u8_decimal p.2
      ((pt.map (fun q => ',' :: (decimalNat q.1 ++ ':' :: decimalNat q.2))).flatten
        ++ '\x7d' :: rest)
      (hb p (by simp)).2 (pairs_close_head_not_digit pt rest '\x7d' (by decide))
    have hrec := mapPairsLoop_decimal_false pt f rest (fun q hq => hb q (by simp [hq]))
      (by simp at hf ⊢; omega)
    rw [hdn, List.cons_append] at hkey ⊢
    have ht := trim_start_cons_not_ws
      (ct ++ ':' :: (decimalNat p.2 ++
        ((pt.map (fun q => ',' :: (decimalNat q.1 ++ ':' :: decimalNat q.2))).flatten
          ++ '\x7d' :: rest))) hws
    rw [mapPairsLoop.eq_def]
    simp only [ht, reduceIte]
    rw [if_neg hne]
    simp only [hkey]
    simp only [hcolon, reduceIte]
    simp only [hval, hrec]

/-- C9.  Comma discipline of the compound cursors, on both sides.  Encode:
the `Compound` fold (sequence elements, map key/value pairs, struct fields)
equals the specification shape `specCommaJoin` — no separator before the
first element, exactly one between adjacent elements — for every fragment
list; the first-element flag is read and cleared once per element by
construction of the fold.  Decode: the `CommaSeparated` cursor, fed the
comma-joined encodings of arbitrary in-range u8 elements (or u8 key/value
pairs), consumes exactly one comma before every element after the first and
none before the first, returning the original elements with the closing
bracket left for the owning compound. -/
theorem compound_comma_discipline :
    (∀ fs : List (List Char), serializeElements true fs = specCommaJoin fs) ∧
    (∀ ps : List (List Char × List Char),
      serializeMapPairs true ps = specCommaJoin (ps.map (fun p => p.1 ++ ':' :: p.2))) ∧
    (∀ fs : List (String × List Char),
      serializeStructFields true fs
        = specCommaJoin (fs.map (fun q => serialize_str q.1 ++ ':' :: q.2))) ∧
    (∀ (xs : List Nat) (fuel : Nat) (rest : List Char),
      (∀ x ∈ xs, x < 2 ^ 8) → xs.length < fuel →
      seqElemsLoop deserialize_u8 fuel true (specCommaJoin (xs.map decimalNat) ++ ']' :: rest)
        = .ok (xs, ']' :: rest)) ∧
    (∀ (ps : List (Nat × Nat)) (fuel : Nat) (rest : List Char),
      (∀ p ∈ ps, p.1 < 2 ^ 8 ∧ p.2 < 2 ^ 8) → ps.length < fuel →
      mapPairsLoop deserialize_u8 deserialize_u8 fuel true
        (specCommaJoin (ps.map (fun q => decimalNat q.1 ++ ':' :: decimalNat q.2))
          ++ '\x7d' :: rest)
        = .ok (ps, '\x7d' :: rest)) :=
  ⟨serializeElements_spec, serializeMapPairs_spec, serializeStructFields_spec,
   seqElemsLoop_decimal, mapPairsLoop_decimal⟩

/-- Witness for C9 at concrete two-element inputs on both sides. -/
theorem compound_comma_discipline_witness :
    serializeElements true [['1'], ['2']] = specCommaJoin [['1'], ['2']] ∧
    seqElemsLoop deserialize_u8 3 true (specCommaJoin ([1, 2].map decimalNat) ++ ']' :: [])
      = .ok ([1, 2], [']']) ∧
    mapPairsLoop deserialize_u8 deserialize_u8 2 true
      (specCommaJoin ([(1, 2)].map (fun q => decimalNat q.1 ++ ':' :: decimalNat q.2))
        ++ '\x7d' :: [])
      = .ok ([(1, 2)], ['\x7d']) :=
  ⟨compound_comma_discipline.1 [['1'], ['2']],
   compound_comma_discipline.2.2.2.1 [1, 2] 3 [] (by decide) (by decide),
   compound_comma_discipline.2.2.2.2 [(1, 2)] 2 [] (by decide) (by decide)⟩

/-- Witness for the amended C10: a concrete successful root decode leaving
nonempty remaining text, whose value `from_str` returns. -/
theorem from_str_no_consumption_check_witness :
    from_str deserialize_u8 "12abc".toList = .ok 12 :=
  from_str_no_consumption_check.1 Nat deserialize_u8 "12abc".toList 12 "abc".toList (by decide)

end Json4Web
